import Mathlib

/-!
Verification of the frame codec and sequence-counter logic of the `hearth`
repository (`src/tuya_protocol.rs`, `src/tuya_connection.rs`).

Modelling conventions:
* bytes are `Nat` values below 256; `u32` values are `Nat` values below `2^32`,
  with an explicit `% 2^32` wherever the Rust code truncates or wraps;
* the AES-128-ECB block primitive comes from the external `aes` crate, not from
  this repository; it is modelled as an abstract keyed block map (`AesModel`)
  together with the properties the repository relies on (`GoodCipher`); the
  PKCS7 padding logic and everything else is embedded concretely;
* fallible Rust functions return `Except`; the one reachable panic in
  `parse_frame` (the slice `data[20..crc_offset]` with `crc_offset < 20`) is
  modelled by an `Option` layer, `none` standing for the panic.
-/

set_option maxRecDepth 20000

namespace Hearth

/-- Byte read `data[i]`.  In the Rust source every executed access is covered
by an earlier bounds test, so the default is never observed on those paths. -/
def byteAt (l : List Nat) (i : Nat) : Nat := l.getD i 0

/-- Rust `u32::to_be_bytes`. -/
def toBE4 (x : Nat) : List Nat :=
  [x / 2 ^ 24 % 256, x / 2 ^ 16 % 256, x / 2 ^ 8 % 256, x % 256]

/-- Rust `u32::from_be_bytes`. -/
def fromBE4 (a b c d : Nat) : Nat := ((a * 256 + b) * 256 + c) * 256 + d

/-- Rust `u32::from_be_bytes` applied to the four bytes at offset `i`, the way the
Rust source reads every header field. -/
def readBE4 (l : List Nat) (i : Nat) : Nat :=
  fromBE4 (byteAt l i) (byteAt l (i + 1)) (byteAt l (i + 2)) (byteAt l (i + 3))

/-! ### CRC-32 (`crc32fast::hash`, the standard reflected CRC-32) -/

/-- Reflected CRC-32 polynomial. -/
def crcPoly : Nat := 0xEDB88320

/-- One bit-step of the CRC-32 table computation. -/
def crcBitStep (c : Nat) : Nat := if c % 2 = 1 then (c / 2) ^^^ crcPoly else c / 2

/-- Entry `i` of the standard CRC-32 lookup table. -/
def crcTableEntry (i : Nat) : Nat := crcBitStep^[8] i

/-- One byte-step: `crc = (crc >> 8) ^ TABLE[(crc ^ byte) & 0xFF]`. -/
def crcStep (c b : Nat) : Nat := (c / 256) ^^^ crcTableEntry ((c ^^^ b) % 256)

/-- Model of `crc32fast::hash`: initial value and final xor `0xFFFFFFFF`. -/
def crc32 (data : List Nat) : Nat := (data.foldl crcStep 0xFFFFFFFF) ^^^ 0xFFFFFFFF

/-! ### The AES-128 block primitive (external crate), abstracted -/

/-- Keyed AES-128 block maps, abstract: the cipher itself is the `aes` crate's,
not this repository's code. -/
structure AesModel where
  encBlock : List Nat → List Nat → List Nat
  decBlock : List Nat → List Nat → List Nat

/-- The facts about AES-128 that the repository relies on: on well-formed
16-byte blocks the two keyed maps are mutually inverse, length- and
byte-range-preserving. -/
structure GoodCipher (A : AesModel) (key : List Nat) : Prop where
  enc_len : ∀ b : List Nat, b.length = 16 → (∀ x ∈ b, x < 256) →
    (A.encBlock key b).length = 16
  enc_bytes : ∀ b : List Nat, b.length = 16 → (∀ x ∈ b, x < 256) →
    ∀ x ∈ A.encBlock key b, x < 256
  dec_enc : ∀ b : List Nat, b.length = 16 → (∀ x ∈ b, x < 256) →
    A.decBlock key (A.encBlock key b) = b

/-- A concrete (identity) instance of the block-cipher interface, used to
evaluate the development on explicit inputs. -/
def refCipher : AesModel := ⟨fun _ b => b, fun _ b => b⟩

theorem refCipher_good (key : List Nat) : GoodCipher refCipher key :=
  ⟨fun _ h _ => h, fun _ _ h => h, fun _ _ _ => rfl⟩

/-! ### PKCS7 padding and ECB chaining (`encrypt_padded_mut` / `decrypt_padded_mut`) -/

def AES_BLOCK_SIZE : Nat := 16

/-- The 16-byte blocks that ECB mode processes independently (a trailing
partial block is kept whole; it never occurs on the executed paths). -/
def chunks : List Nat → List (List Nat)
  | x0 :: x1 :: x2 :: x3 :: x4 :: x5 :: x6 :: x7 ::
    x8 :: x9 :: x10 :: x11 :: x12 :: x13 :: x14 :: x15 :: rest =>
      [x0, x1, x2, x3, x4, x5, x6, x7, x8, x9, x10, x11, x12, x13, x14, x15] :: chunks rest
  | [] => []
  | l => [l]

/-- PKCS7 pad length `16 - (len mod 16)`, always in `1..16` (a full extra block
when the length is already a multiple of 16). -/
def padLen (n : Nat) : Nat := 16 - n % 16

/-- The padded buffer produced inside `encrypt_padded_mut::<Pkcs7>`. -/
def pkcs7Pad (p : List Nat) : List Nat :=
  p ++ List.replicate (padLen p.length) (padLen p.length)

/-- Success condition of `encrypt_padded_mut::<Pkcs7>(buf, msg_len)`: the
buffer must have room for the padded message.  The `.expect` in
`encrypt_payload` panics exactly when this fails. -/
def pkcs7PadFits (msgLen bufLen : Nat) : Bool := msgLen + padLen msgLen ≤ bufLen

/-- Model of `Pkcs7::unpad`: the last byte `n` must lie in `1..=16` and the trailing `n`
bytes must all equal `n`; then those `n` bytes are removed. -/
def pkcs7Unpad (pt : List Nat) : Option (List Nat) :=
  match pt.getLast? with
  | none => none
  | some n =>
    if n = 0 ∨ 16 < n then none
    else if (pt.drop (pt.length - n)).all (fun x => x == n) then
      some (pt.take (pt.length - n))
    else none

/-! ### Protocol data types and constants (`tuya_protocol.rs`) -/

inductive ProtocolError where
  | InvalidPrefix : Nat → ProtocolError
  | InvalidSuffix : Nat → ProtocolError
  | CrcMismatch : Nat → Nat → ProtocolError
  | PayloadTooShort : ProtocolError
  | DecryptionFailed : ProtocolError
deriving DecidableEq, Repr

deriving instance DecidableEq for Except

structure TuyaMessage where
  seqno : Nat
  cmd : Nat
  retcode : Nat
  payload : List Nat
deriving DecidableEq, Repr

def PREFIX : Nat := 0x000055AA
def SUFFIX : Nat := 0x0000AA55
def HEADER_SIZE : Nat := 16
def CRC_SIZE : Nat := 4
def SUFFIX_SIZE : Nat := 4
def FOOTER_SIZE : Nat := CRC_SIZE + SUFFIX_SIZE
def RETCODE_SIZE : Nat := 4

def CMD_CONTROL : Nat := 0x07
def CMD_STATUS : Nat := 0x08
def CMD_HEART_BEAT : Nat := 0x09
def CMD_DP_QUERY : Nat := 0x0A
def CMD_UPDATEDPS : Nat := 0x12

/-- Literal `"3.3"` followed by 12 zero bytes. -/
def VERSION_HEADER : List Nat := [0x33, 0x2E, 0x33, 0, 0, 0, 0, 0, 0, 0, 0, 0, 0, 0, 0]

/-- Commands whose outbound frames skip the version header. -/
def NO_HEADER_CMDS : List Nat := [CMD_DP_QUERY, CMD_UPDATEDPS, CMD_HEART_BEAT]

/-! ### The codec functions -/

/-- Source `encrypt_payload` (lines 78-89): PKCS7-pad, then encrypt each 16-byte block
independently (ECB). -/
def encrypt_payload (A : AesModel) (plaintext local_key : List Nat) : List Nat :=
  ((chunks (pkcs7Pad plaintext)).map (A.encBlock local_key)).flatten

/-- Source `decrypt_payload` (lines 91-99): `decrypt_padded_mut::<Pkcs7>` rejects a
buffer whose length is not a multiple of 16, decrypts each block, then unpads
(an empty buffer has no last block and is rejected by the unpad). -/
def decrypt_payload (A : AesModel) (ciphertext local_key : List Nat) :
    Except ProtocolError (List Nat) :=
  if ciphertext.length % 16 ≠ 0 then .error .DecryptionFailed
  else
    match pkcs7Unpad (((chunks ciphertext).map (A.decBlock local_key)).flatten) with
    | none => .error .DecryptionFailed
    | some pt => .ok pt

/-- Source `build_frame` (lines 107-136). -/
def build_frame (A : AesModel) (seqno cmd : Nat) (json_payload local_key : List Nat) :
    List Nat :=
  let encrypted := encrypt_payload A json_payload local_key
  let payload := if cmd ∈ NO_HEADER_CMDS then encrypted else VERSION_HEADER ++ encrypted
  let length := (payload.length + FOOTER_SIZE) % 2 ^ 32
  let pre := toBE4 PREFIX ++ toBE4 seqno ++ toBE4 cmd ++ toBE4 length ++ payload
  pre ++ toBE4 (crc32 pre) ++ toBE4 SUFFIX

/-- The in-the-clear `"3.3"` version-header strip on inbound frames
(`parse_frame` lines 203-210): strip exactly 15 bytes when the raw payload is
at least 15 bytes long and starts with the 3-byte marker. -/
def strip_version (raw_payload : List Nat) : List Nat :=
  if 15 ≤ raw_payload.length ∧ raw_payload.take 3 = [0x33, 0x2E, 0x33] then
    raw_payload.drop 15
  else raw_payload

/-- Post-validation stage of `parse_frame` (lines 193-228): empty-payload
short-circuits, version-header strip, decryption. -/
def parse_tail (A : AesModel) (local_key : List Nat) (seqno cmd retcode : Nat)
    (raw_payload : List Nat) : Except ProtocolError TuyaMessage :=
  if raw_payload = [] then .ok ⟨seqno, cmd, retcode, []⟩
  else
    let ciphertext := strip_version raw_payload
    if ciphertext = [] then .ok ⟨seqno, cmd, retcode, []⟩
    else
      match decrypt_payload A ciphertext local_key with
      | .error e => .error e
      | .ok payload => .ok ⟨seqno, cmd, retcode, payload⟩

/-- Source `parse_frame` (lines 140-229).  The value `none` models the Rust panic on
the slice `data[20..crc_offset]` when the declared length is below 12 (start
index above end index); every other path yields `some`. -/
def parse_frame (A : AesModel) (data local_key : List Nat) :
    Option (Except ProtocolError TuyaMessage) :=
  if data.length < HEADER_SIZE + FOOTER_SIZE then some (.error .PayloadTooShort)
  else
    let pfx := readBE4 data 0
    if pfx ≠ PREFIX then some (.error (.InvalidPrefix pfx))
    else
      let seqno := readBE4 data 4
      let cmd := readBE4 data 8
      let length := readBE4 data 12
      let total_size := HEADER_SIZE + length
      if data.length < total_size then some (.error .PayloadTooShort)
      else
        let suffix_offset := total_size - SUFFIX_SIZE
        let sfx := readBE4 data suffix_offset
        if sfx ≠ SUFFIX then some (.error (.InvalidSuffix sfx))
        else
          let crc_offset := suffix_offset - CRC_SIZE
          let expected_crc := readBE4 data crc_offset
          let actual_crc := crc32 (data.take crc_offset)
          if expected_crc ≠ actual_crc then
            some (.error (.CrcMismatch expected_crc actual_crc))
          else
            let retcode := readBE4 data HEADER_SIZE
            if crc_offset < HEADER_SIZE + RETCODE_SIZE then none
            else
              some (parse_tail A local_key seqno cmd retcode
                ((data.take crc_offset).drop (HEADER_SIZE + RETCODE_SIZE)))

/-- A device-response frame exactly as the repository's `parse_device_response`
test assembles it (lines 334-351): `[header][retcode][body][crc][suffix]`. -/
def responseFrame (seqno cmd retcode : Nat) (body : List Nat) : List Nat :=
  let payload_section := toBE4 retcode ++ body
  let length := (payload_section.length + FOOTER_SIZE) % 2 ^ 32
  let pre := toBE4 PREFIX ++ toBE4 seqno ++ toBE4 cmd ++ toBE4 length ++ payload_section
  pre ++ toBE4 (crc32 pre) ++ toBE4 SUFFIX

/-- The payload section of an outbound frame (`build_frame` lines 110-117):
ciphertext, preceded by the in-the-clear version header unless the command is
in the no-header table. -/
def payload_section (A : AesModel) (cmd : Nat) (json_payload local_key : List Nat) :
    List Nat :=
  if cmd ∈ NO_HEADER_CMDS then encrypt_payload A json_payload local_key
  else VERSION_HEADER ++ encrypt_payload A json_payload local_key

/-- Common frame shape shared by `build_frame` and the test's response frame:
`[header][section][crc][suffix]`. -/
def frameOf (seqno cmd : Nat) (sect : List Nat) : List Nat :=
  let length := (sect.length + FOOTER_SIZE) % 2 ^ 32
  let pre := toBE4 PREFIX ++ toBE4 seqno ++ toBE4 cmd ++ toBE4 length ++ sect
  pre ++ toBE4 (crc32 pre) ++ toBE4 SUFFIX

/-- The checksum-covered region of a frame: header plus payload section. -/
def preOf (seqno cmd : Nat) (sect : List Nat) : List Nat :=
  toBE4 PREFIX ++ toBE4 seqno ++ toBE4 cmd ++
    toBE4 ((sect.length + FOOTER_SIZE) % 2 ^ 32) ++ sect

/-- The spec's notion of self-consistent trailing PKCS7 padding: the last byte
`n` lies in `1..=16` and the trailing `n` bytes all equal `n`. -/
def selfConsistentPad (pt : List Nat) : Bool :=
  match pt.getLast? with
  | none => false
  | some n =>
    1 ≤ n && n ≤ 16 && (pt.drop (pt.length - n)).all (fun x => x == n)

/-! ### The sequence counter (`tuya_connection.rs`) -/

/-- Counter value installed by `connect` (line 89): `AtomicU32::new(1)`. -/
def SEQNO_INIT : Nat := 1

/-- Source `next_seqno` (lines 61-63): `fetch_add(1, Relaxed)` on an `AtomicU32`
returns the old value and stores the incremented value, wrapping mod `2^32`. -/
def next_seqno (counter : Nat) : Nat × Nat := (counter, (counter + 1) % 2 ^ 32)

/-- Counter contents after `i` calls of `next_seqno` on one connection. -/
def counterAfter : Nat → Nat
  | 0 => SEQNO_INIT
  | i + 1 => (next_seqno (counterAfter i)).2

/-- Sequence number allocated by the `i`-th `send_receive` call (0-based). -/
def seqnoAt (i : Nat) : Nat := (next_seqno (counterAfter i)).1

/-! ## Basic byte-buffer lemmas -/

theorem byteAt_nil (i : Nat) : byteAt [] i = 0 := rfl

theorem byteAt_append_left {l : List Nat} (r : List Nat) {i : Nat} (h : i < l.length) :
    byteAt (l ++ r) i = byteAt l i := by
  simp [byteAt, List.getD_eq_getElem?_getD, List.getElem?_append, h]

theorem byteAt_append_right {l : List Nat} (r : List Nat) {i : Nat} (h : l.length ≤ i) :
    byteAt (l ++ r) i = byteAt r (i - l.length) := by
  simp [byteAt, List.getD_eq_getElem?_getD, List.getElem?_append, Nat.not_lt.mpr h]

theorem length_toBE4 (x : Nat) : (toBE4 x).length = 4 := rfl

theorem byteAt_toBE4_lt (x i : Nat) : byteAt (toBE4 x) i < 256 := by
  match i with
  | 0 | 1 | 2 | 3 => simp [byteAt, toBE4, List.getD]; omega
  | n + 4 => simp [byteAt, toBE4, List.getD]

theorem readBE4_toBE4 {x : Nat} (r : List Nat) (h : x < 2 ^ 32) :
    readBE4 (toBE4 x ++ r) 0 = x := by
  simp [readBE4, toBE4, byteAt, List.getD]
  simp [fromBE4]
  omega

theorem readBE4_append_skip {l : List Nat} (r : List Nat) {i : Nat} (h : l.length ≤ i) :
    readBE4 (l ++ r) i = readBE4 r (i - l.length) := by
  have h1 : l.length ≤ i + 1 := by omega
  have h2 : l.length ≤ i + 2 := by omega
  have h3 : l.length ≤ i + 3 := by omega
  have e1 : i + 1 - l.length = i - l.length + 1 := by omega
  have e2 : i + 2 - l.length = i - l.length + 2 := by omega
  have e3 : i + 3 - l.length = i - l.length + 3 := by omega
  simp only [readBE4, byteAt_append_right r h, byteAt_append_right r h1,
    byteAt_append_right r h2, byteAt_append_right r h3, e1, e2, e3]

theorem readBE4_append_left {l : List Nat} (r : List Nat) {i : Nat} (h : i + 4 ≤ l.length) :
    readBE4 (l ++ r) i = readBE4 l i := by
  simp only [readBE4, byteAt_append_left r (by omega : i < l.length),
    byteAt_append_left r (by omega : i + 1 < l.length),
    byteAt_append_left r (by omega : i + 2 < l.length),
    byteAt_append_left r (by omega : i + 3 < l.length)]

/-! ## CRC-32 range lemmas -/

theorem crcBitStep_lt {c : Nat} (h : c < 2 ^ 32) : crcBitStep c < 2 ^ 32 := by
  unfold crcBitStep
  split
  · exact Nat.xor_lt_two_pow (by omega) (by norm_num [crcPoly])
  · omega

theorem crcBitStep_iter_lt (n : Nat) {c : Nat} (h : c < 2 ^ 32) :
    crcBitStep^[n] c < 2 ^ 32 := by
  induction n generalizing c with
  | zero => simpa
  | succ n ih => rw [Function.iterate_succ_apply]; exact ih (crcBitStep_lt h)

theorem crcTableEntry_lt {i : Nat} (h : i < 2 ^ 32) : crcTableEntry i < 2 ^ 32 :=
  crcBitStep_iter_lt 8 h

theorem crcStep_lt {c : Nat} (b : Nat) (h : c < 2 ^ 32) : crcStep c b < 2 ^ 32 := by
  unfold crcStep
  exact Nat.xor_lt_two_pow (by omega) (crcTableEntry_lt (by have := Nat.mod_lt (c ^^^ b) (y := 256) (by norm_num); omega))

theorem foldl_crcStep_lt (l : List Nat) {c : Nat} (h : c < 2 ^ 32) :
    l.foldl crcStep c < 2 ^ 32 := by
  induction l generalizing c with
  | nil => simpa
  | cons x xs ih => exact ih (crcStep_lt x h)

theorem crc32_lt (l : List Nat) : crc32 l < 2 ^ 32 :=
  Nat.xor_lt_two_pow (foldl_crcStep_lt l (by norm_num)) (by norm_num)

/-! ## Reading the fields of an assembled frame -/

theorem readBE4_toBE4_only {x : Nat} (h : x < 2 ^ 32) : readBE4 (toBE4 x) 0 = x := by
  have := readBE4_toBE4 (x := x) [] h
  simpa using this

theorem readBE4_toBE4_skip (x : Nat) (r : List Nat) (i : Nat) :
    readBE4 (toBE4 x ++ r) (4 + i) = readBE4 r i := by
  rw [readBE4_append_skip r (by simp [length_toBE4])]
  simp [length_toBE4]

theorem length_frameOf (s c : Nat) (sect : List Nat) :
    (frameOf s c sect).length = sect.length + 24 := by
  simp [frameOf, length_toBE4]
  omega

theorem parse_frameOf (A : AesModel) (key : List Nat) (s c : Nat) (sect : List Nat)
    (hs : s < 2 ^ 32) (hc : c < 2 ^ 32) (hlen : sect.length + 8 < 2 ^ 32)
    (h4 : 4 ≤ sect.length) :
    parse_frame A (frameOf s c sect) key =
      some (parse_tail A key s c (readBE4 sect 0) (sect.drop 4)) := by
  have hmod : (sect.length + FOOTER_SIZE) % 2 ^ 32 = sect.length + 8 :=
    Nat.mod_eq_of_lt hlen
  obtain ⟨pre, hpre⟩ :
      ∃ p, p = toBE4 PREFIX ++ toBE4 s ++ toBE4 c ++ toBE4 (sect.length + 8) ++ sect :=
    ⟨_, rfl⟩
  obtain ⟨K, hK⟩ : ∃ k, k = crc32 pre := ⟨_, rfl⟩
  have hKlt : K < 2 ^ 32 := hK ▸ crc32_lt pre
  have hpreLen : pre.length = sect.length + 16 := by
    simp [hpre, length_toBE4]; omega
  have hF : frameOf s c sect = pre ++ (toBE4 K ++ toBE4 SUFFIX) := by
    rw [hK, hpre]; simp only [frameOf, hmod, List.append_assoc]
  have hFr : frameOf s c sect =
      toBE4 PREFIX ++ (toBE4 s ++ (toBE4 c ++ (toBE4 (sect.length + 8) ++
        (sect ++ (toBE4 K ++ toBE4 SUFFIX))))) := by
    rw [hF, hpre]; simp [List.append_assoc]
  have hFlen : (frameOf s c sect).length = sect.length + 24 := length_frameOf s c sect
  -- the five header reads
  have read0 : readBE4 (frameOf s c sect) 0 = PREFIX := by
    rw [hFr]; exact readBE4_toBE4 _ (by norm_num [PREFIX])
  have read4 : readBE4 (frameOf s c sect) 4 = s := by
    rw [hFr, show (4 : Nat) = 4 + 0 by rfl, readBE4_toBE4_skip]
    exact readBE4_toBE4 _ hs
  have read8 : readBE4 (frameOf s c sect) 8 = c := by
    rw [hFr, show (8 : Nat) = 4 + (4 + 0) by rfl, readBE4_toBE4_skip, readBE4_toBE4_skip]
    exact readBE4_toBE4 _ hc
  have read12 : readBE4 (frameOf s c sect) 12 = sect.length + 8 := by
    rw [hFr, show (12 : Nat) = 4 + (4 + (4 + 0)) by rfl, readBE4_toBE4_skip,
      readBE4_toBE4_skip, readBE4_toBE4_skip]
    exact readBE4_toBE4 _ hlen
  have read16 : readBE4 (frameOf s c sect) 16 = readBE4 sect 0 := by
    rw [hFr, show (16 : Nat) = 4 + (4 + (4 + (4 + 0))) by rfl, readBE4_toBE4_skip,
      readBE4_toBE4_skip, readBE4_toBE4_skip, readBE4_toBE4_skip]
    exact readBE4_append_left _ (by omega)
  have readSfx : readBE4 (frameOf s c sect) (sect.length + 20) = SUFFIX := by
    rw [hF, readBE4_append_skip _ (by omega), hpreLen]
    rw [show sect.length + 20 - (sect.length + 16) = 4 + 0 by omega, readBE4_toBE4_skip]
    exact readBE4_toBE4_only (by norm_num [SUFFIX])
  have readCrc : readBE4 (frameOf s c sect) (sect.length + 16) = K := by
    rw [hF, readBE4_append_skip _ (by omega), hpreLen]
    rw [show sect.length + 16 - (sect.length + 16) = 0 by omega]
    exact readBE4_toBE4 _ hKlt
  have takePre : (frameOf s c sect).take (sect.length + 16) = pre := by
    rw [hF, ← hpreLen]; exact List.take_left pre _
  have dropRaw : pre.drop 20 = sect.drop 4 := by
    rw [hpre]
    have h16 : (toBE4 PREFIX ++ toBE4 s ++ toBE4 c ++ toBE4 (sect.length + 8)).length = 16 := by
      simp [length_toBE4]
    rw [show (20 : Nat) = 16 + 4 by rfl, ← h16, List.drop_append 4]
  -- walk the validation chain
  rw [parse_frame]
  rw [if_neg (by rw [hFlen]; norm_num [HEADER_SIZE, FOOTER_SIZE, CRC_SIZE, SUFFIX_SIZE])]
  simp only [read0, read4, read8, read12, read16]
  rw [if_neg (by simp)]
  rw [if_neg (by rw [hFlen]; norm_num [HEADER_SIZE]; omega)]
  rw [show HEADER_SIZE + (sect.length + 8) - SUFFIX_SIZE = sect.length + 20 by
    norm_num [HEADER_SIZE, SUFFIX_SIZE]; omega]
  simp only [readSfx]
  rw [if_neg (by simp)]
  rw [show sect.length + 20 - CRC_SIZE = sect.length + 16 by norm_num [CRC_SIZE]; omega]
  simp only [readCrc, takePre, ← hK]
  rw [if_neg (by simp)]
  rw [if_neg (by norm_num [HEADER_SIZE, RETCODE_SIZE]; omega)]
  simp only [HEADER_SIZE, RETCODE_SIZE, read16]
  norm_num
  rw [dropRaw]

/-! ## Block-splitting lemmas -/

theorem chunks_eq {l : List Nat} (h : l ≠ []) :
    chunks l = l.take 16 :: chunks (l.drop 16) := by
  match l with
  | [] => exact absurd rfl h
  | [a0] => rfl
  | [a0, a1] => rfl
  | [a0, a1, a2] => rfl
  | [a0, a1, a2, a3] => rfl
  | [a0, a1, a2, a3, a4] => rfl
  | [a0, a1, a2, a3, a4, a5] => rfl
  | [a0, a1, a2, a3, a4, a5, a6] => rfl
  | [a0, a1, a2, a3, a4, a5, a6, a7] => rfl
  | [a0, a1, a2, a3, a4, a5, a6, a7, a8] => rfl
  | [a0, a1, a2, a3, a4, a5, a6, a7, a8, a9] => rfl
  | [a0, a1, a2, a3, a4, a5, a6, a7, a8, a9, a10] => rfl
  | [a0, a1, a2, a3, a4, a5, a6, a7, a8, a9, a10, a11] => rfl
  | [a0, a1, a2, a3, a4, a5, a6, a7, a8, a9, a10, a11, a12] => rfl
  | [a0, a1, a2, a3, a4, a5, a6, a7, a8, a9, a10, a11, a12, a13] => rfl
  | [a0, a1, a2, a3, a4, a5, a6, a7, a8, a9, a10, a11, a12, a13, a14] => rfl
  | [a0, a1, a2, a3, a4, a5, a6, a7, a8, a9, a10, a11, a12, a13, a14, a15] => rfl
  | a0 :: a1 :: a2 :: a3 :: a4 :: a5 :: a6 :: a7 ::
    a8 :: a9 :: a10 :: a11 :: a12 :: a13 :: a14 :: a15 :: b :: rest => rfl

theorem chunks_append16 {b : List Nat} (rest : List Nat) (hb : b.length = 16) :
    chunks (b ++ rest) = b :: chunks rest := by
  have hne : b ++ rest ≠ [] := by
    intro h
    have := congrArg List.length h
    simp [hb] at this
  have h1 : (b ++ rest).take 16 = b := by rw [← hb]; exact List.take_left b rest
  have h2 : (b ++ rest).drop 16 = rest := by rw [← hb]; exact List.drop_left b rest
  rw [chunks_eq hne, h1, h2]

/-- Induction along the block decomposition. -/
theorem chunks_induction (P : List Nat → Prop) (hnil : P [])
    (hstep : ∀ l, l ≠ [] → P (l.drop 16) → P l) : ∀ l, P l := by
  suffices H : ∀ n, ∀ l : List Nat, l.length ≤ n → P l from fun l => H l.length l le_rfl
  intro n
  induction n with
  | zero =>
    intro l hl
    have : l = [] := List.length_eq_zero.mp (Nat.le_zero.mp hl)
    subst this; exact hnil
  | succ n ih =>
    intro l hl
    by_cases h : l = []
    · subst h; exact hnil
    · refine hstep l h (ih _ ?_)
      have : l.length ≠ 0 := fun hc => h (List.length_eq_zero.mp hc)
      simp only [List.length_drop]
      omega

theorem chunks_flatten : ∀ l : List Nat, (chunks l).flatten = l := by
  refine chunks_induction _ rfl ?_
  intro l h ih
  rw [chunks_eq h]
  simp only [List.flatten_cons]
  rw [ih]
  exact List.take_append_drop 16 l

theorem chunks_flatten_blocks {bs : List (List Nat)} (h : ∀ b ∈ bs, b.length = 16) :
    chunks bs.flatten = bs := by
  induction bs with
  | nil => rfl
  | cons b bs ih =>
    rw [List.flatten_cons, chunks_append16 _ (h b (by simp))]
    rw [ih (fun x hx => h x (by simp [hx]))]

theorem length_chunks : ∀ {l : List Nat}, l.length % 16 = 0 →
    (chunks l).length = l.length / 16 := by
  have := chunks_induction
    (fun l => l.length % 16 = 0 → (chunks l).length = l.length / 16) (by simp [chunks])
  refine fun {l} => this ?_ l
  intro l hl ih h
  have h0 : l.length ≠ 0 := fun hc => hl (List.length_eq_zero.mp hc)
  have h16 : 16 ≤ l.length := by omega
  rw [chunks_eq hl]
  have hd : (l.drop 16).length = l.length - 16 := List.length_drop 16 l
  rw [List.length_cons, ih (by omega), hd]
  omega

theorem mem_chunks_length : ∀ {l : List Nat}, l.length % 16 = 0 →
    ∀ b ∈ chunks l, b.length = 16 := by
  have := chunks_induction
    (fun l => l.length % 16 = 0 → ∀ b ∈ chunks l, b.length = 16) (by simp [chunks])
  refine fun {l} => this ?_ l
  intro l hl ih h b hb
  have h0 : l.length ≠ 0 := fun hc => hl (List.length_eq_zero.mp hc)
  have h16 : 16 ≤ l.length := by omega
  rw [chunks_eq hl] at hb
  rcases List.mem_cons.mp hb with rfl | hb
  · simp [List.length_take]; omega
  · exact ih (by simp [List.length_drop]; omega) b hb

theorem mem_chunks_mem : ∀ {l : List Nat}, ∀ b ∈ chunks l, ∀ x ∈ b, x ∈ l := by
  have := chunks_induction (fun l => ∀ b ∈ chunks l, ∀ x ∈ b, x ∈ l) (by simp [chunks])
  refine fun {l} => this ?_ l
  intro l hl ih b hb x hx
  rw [chunks_eq hl] at hb
  rcases List.mem_cons.mp hb with rfl | hb
  · exact List.take_subset 16 l hx
  · exact List.drop_subset 16 l (ih b hb x hx)

/-! ## PKCS7 padding lemmas -/

theorem padLen_pos (n : Nat) : 1 ≤ padLen n := by
  unfold padLen; omega

theorem padLen_le (n : Nat) : padLen n ≤ 16 := by
  unfold padLen; omega

theorem length_pkcs7Pad (p : List Nat) :
    (pkcs7Pad p).length = p.length + padLen p.length := by
  simp [pkcs7Pad]

theorem length_pkcs7Pad_mod (p : List Nat) : (pkcs7Pad p).length % 16 = 0 := by
  rw [length_pkcs7Pad]; unfold padLen; omega

theorem length_pkcs7Pad_eq (p : List Nat) :
    (pkcs7Pad p).length = (p.length / 16 + 1) * 16 := by
  rw [length_pkcs7Pad]; unfold padLen; omega

theorem pkcs7Pad_bytes {p : List Nat} (hp : ∀ x ∈ p, x < 256) :
    ∀ x ∈ pkcs7Pad p, x < 256 := by
  intro x hx
  rcases List.mem_append.mp hx with h | h
  · exact hp x h
  · have := List.eq_of_mem_replicate h
    subst this
    have := padLen_le p.length
    omega

theorem pkcs7Unpad_pad (p : List Nat) : pkcs7Unpad (pkcs7Pad p) = some p := by
  have hk1 : 1 ≤ padLen p.length := padLen_pos p.length
  have hk16 : padLen p.length ≤ 16 := padLen_le p.length
  have hlast : (pkcs7Pad p).getLast? = some (padLen p.length) := by
    rw [pkcs7Pad, List.getLast?_append_of_ne_nil _ (by
      intro h
      have := congrArg List.length h
      simp at this
      omega)]
    simp [List.getLast?_replicate]
    omega
  have hdrop : (pkcs7Pad p).drop ((pkcs7Pad p).length - padLen p.length) =
      List.replicate (padLen p.length) (padLen p.length) := by
    rw [length_pkcs7Pad, Nat.add_sub_cancel, pkcs7Pad]
    exact List.drop_left p _
  have htake : (pkcs7Pad p).take ((pkcs7Pad p).length - padLen p.length) = p := by
    rw [length_pkcs7Pad, Nat.add_sub_cancel, pkcs7Pad]
    exact List.take_left p _
  rw [pkcs7Unpad, hlast]
  simp only [hdrop, htake]
  rw [if_neg (by omega)]
  rw [if_pos (by simp)]

/-! ## Encryption round-trip lemmas -/

theorem pad_chunks_len {p : List Nat} :
    ∀ b ∈ chunks (pkcs7Pad p), b.length = 16 :=
  mem_chunks_length (length_pkcs7Pad_mod p)

theorem pad_chunks_bytes {p : List Nat} (hp : ∀ x ∈ p, x < 256) :
    ∀ b ∈ chunks (pkcs7Pad p), ∀ x ∈ b, x < 256 :=
  fun b hb x hx => pkcs7Pad_bytes hp x (mem_chunks_mem b hb x hx)

theorem flatten_map_length16 {f : List Nat → List Nat} {bs : List (List Nat)}
    (h : ∀ b ∈ bs, (f b).length = 16) :
    ((bs.map f).flatten).length = 16 * bs.length := by
  induction bs with
  | nil => rfl
  | cons b bs ih =>
    simp only [List.map_cons, List.flatten_cons, List.length_append, h b (by simp),
      List.length_cons]
    rw [ih (fun x hx => h x (by simp [hx]))]
    ring

theorem length_encrypt_payload {A : AesModel} {key : List Nat} (hG : GoodCipher A key)
    {p : List Nat} (hp : ∀ x ∈ p, x < 256) :
    (encrypt_payload A p key).length = (p.length / 16 + 1) * 16 := by
  rw [encrypt_payload, flatten_map_length16
    (fun b hb => hG.enc_len b (pad_chunks_len b hb) (pad_chunks_bytes hp b hb))]
  rw [length_chunks (length_pkcs7Pad_mod p), length_pkcs7Pad_eq]
  omega

theorem encrypt_payload_bytes {A : AesModel} {key : List Nat} (hG : GoodCipher A key)
    {p : List Nat} (hp : ∀ x ∈ p, x < 256) :
    ∀ x ∈ encrypt_payload A p key, x < 256 := by
  intro x hx
  rw [encrypt_payload] at hx
  obtain ⟨eb, heb, hxeb⟩ := List.mem_flatten.mp hx
  obtain ⟨b, hb, rfl⟩ := List.mem_map.mp heb
  exact hG.enc_bytes b (pad_chunks_len b hb) (pad_chunks_bytes hp b hb) x hxeb

theorem decrypt_encrypt {A : AesModel} {key : List Nat} (hG : GoodCipher A key)
    {p : List Nat} (hp : ∀ x ∈ p, x < 256) :
    decrypt_payload A (encrypt_payload A p key) key = .ok p := by
  have hlen16 : ∀ eb ∈ (chunks (pkcs7Pad p)).map (A.encBlock key), eb.length = 16 := by
    intro eb heb
    obtain ⟨b, hb, rfl⟩ := List.mem_map.mp heb
    exact hG.enc_len b (pad_chunks_len b hb) (pad_chunks_bytes hp b hb)
  have hmod : (encrypt_payload A p key).length % 16 = 0 := by
    rw [length_encrypt_payload hG hp]; omega
  rw [decrypt_payload, if_neg (by omega)]
  rw [encrypt_payload, chunks_flatten_blocks hlen16]
  have hmapid : ((chunks (pkcs7Pad p)).map (A.encBlock key)).map (A.decBlock key) =
      chunks (pkcs7Pad p) := by
    rw [List.map_map]
    exact (List.map_congr_left (fun b hb =>
      hG.dec_enc b (pad_chunks_len b hb) (pad_chunks_bytes hp b hb))).trans
      (List.map_id _)
  rw [hmapid, chunks_flatten, pkcs7Unpad_pad]

/-! ## Inbound version-header stripping and the response-frame path -/

theorem strip_version_tag (ct : List Nat) :
    strip_version (VERSION_HEADER ++ ct) = ct := by
  simp [strip_version, VERSION_HEADER]

/-! ## Sequence-counter arithmetic -/

theorem counterAfter_closed (i : Nat) : counterAfter i = (1 + i) % 2 ^ 32 := by
  induction i with
  | zero => simp [counterAfter, SEQNO_INIT]
  | succ i ih =>
    rw [counterAfter, ih, next_seqno]
    simp only [Nat.mod_add_mod]
    rw [Nat.add_assoc]

theorem seqnoAt_closed (i : Nat) : seqnoAt i = (1 + i) % 2 ^ 32 := by
  rw [seqnoAt, next_seqno, counterAfter_closed]

/-! ## CRC-32 distinguishes single-byte corruptions

The key structural fact is that the per-byte state update is injective in the
state and, for a fixed state, injective in the byte.  Both reduce to the top
bytes of the 256 CRC table entries being pairwise distinct, a finite fact
checked by the kernel. -/

set_option maxRecDepth 100000 in
theorem crcTop_nodup :
    ((List.range 256).map (fun i => crcTableEntry i / 2 ^ 24)).Nodup := by decide

theorem crcTableEntry_top_inj {a b : Nat} (ha : a < 256) (hb : b < 256)
    (h : crcTableEntry a / 2 ^ 24 = crcTableEntry b / 2 ^ 24) : a = b := by
  have hia : a < ((List.range 256).map (fun i => crcTableEntry i / 2 ^ 24)).length := by
    simpa
  have hib : b < ((List.range 256).map (fun i => crcTableEntry i / 2 ^ 24)).length := by
    simpa
  have he : ((List.range 256).map (fun i => crcTableEntry i / 2 ^ 24))[a] =
      ((List.range 256).map (fun i => crcTableEntry i / 2 ^ 24))[b] := by
    simpa using h
  exact (List.Nodup.getElem_inj_iff crcTop_nodup).mp he

theorem crcTableEntry_inj {a b : Nat} (ha : a < 256) (hb : b < 256)
    (h : crcTableEntry a = crcTableEntry b) : a = b :=
  crcTableEntry_top_inj ha hb (congrArg (· / 2 ^ 24) h)

theorem xor_mod_256 (a b : Nat) : (a ^^^ b) % 256 = (a % 256) ^^^ (b % 256) := by
  have h : (a ^^^ b) % 2 ^ 8 = (a % 2 ^ 8) ^^^ (b % 2 ^ 8) := by
    apply Nat.eq_of_testBit_eq
    intro i
    simp only [Nat.testBit_mod_two_pow, Nat.testBit_xor]
    by_cases hi : i < 8 <;> simp [hi]
  simpa using h

theorem xor_div_pow24 {a : Nat} (t : Nat) (ha : a < 2 ^ 24) :
    (a ^^^ t) / 2 ^ 24 = t / 2 ^ 24 := by
  rw [← Nat.shiftRight_eq_div_pow, ← Nat.shiftRight_eq_div_pow]
  apply Nat.eq_of_testBit_eq
  intro i
  simp only [Nat.testBit_shiftRight, Nat.testBit_xor]
  have hbit : a.testBit (24 + i) = false :=
    Nat.testBit_eq_false_of_lt
      (lt_of_lt_of_le ha (Nat.pow_le_pow_right (by norm_num) (by omega)))
  simp [hbit]

theorem xor_left_cancel {a b c : Nat} (h : a ^^^ b = a ^^^ c) : b = c := by
  have h2 := congrArg (fun x => a ^^^ x) h
  simpa [← Nat.xor_assoc, Nat.xor_self, Nat.zero_xor] using h2

theorem xor_right_cancel {a b c : Nat} (h : b ^^^ a = c ^^^ a) : b = c := by
  have h2 := congrArg (fun x => x ^^^ a) h
  simpa [Nat.xor_assoc, Nat.xor_self, Nat.xor_zero] using h2

theorem crcStep_state_inj {c1 c2 : Nat} (b : Nat) (h1 : c1 < 2 ^ 32) (h2 : c2 < 2 ^ 32)
    (h : crcStep c1 b = crcStep c2 b) : c1 = c2 := by
  rw [crcStep, crcStep, xor_mod_256, xor_mod_256] at h
  have hd1 : c1 / 256 < 2 ^ 24 := by omega
  have hd2 : c2 / 256 < 2 ^ 24 := by omega
  have ha1' : c1 % 256 ^^^ b % 256 < 2 ^ 8 := Nat.xor_lt_two_pow (by omega) (by omega)
  have ha2' : c2 % 256 ^^^ b % 256 < 2 ^ 8 := Nat.xor_lt_two_pow (by omega) (by omega)
  have ha1 : c1 % 256 ^^^ b % 256 < 256 := by omega
  have ha2 : c2 % 256 ^^^ b % 256 < 256 := by omega
  have htop := congrArg (· / 2 ^ 24) h
  simp only at htop
  rw [xor_div_pow24 _ hd1, xor_div_pow24 _ hd2] at htop
  have hargs : c1 % 256 ^^^ b % 256 = c2 % 256 ^^^ b % 256 :=
    crcTableEntry_top_inj ha1 ha2 htop
  have hmods : c1 % 256 = c2 % 256 := xor_right_cancel hargs
  rw [hargs] at h
  have hdivs : c1 / 256 = c2 / 256 := xor_right_cancel h
  omega

theorem crcStep_byte_inj {b1 b2 : Nat} (c : Nat) (hb1 : b1 < 256) (hb2 : b2 < 256)
    (hne : b1 ≠ b2) : crcStep c b1 ≠ crcStep c b2 := by
  intro h
  rw [crcStep, crcStep, xor_mod_256, xor_mod_256] at h
  have ha1' : c % 256 ^^^ b1 % 256 < 2 ^ 8 := Nat.xor_lt_two_pow (by omega) (by omega)
  have ha2' : c % 256 ^^^ b2 % 256 < 2 ^ 8 := Nat.xor_lt_two_pow (by omega) (by omega)
  have ha1 : c % 256 ^^^ b1 % 256 < 256 := by omega
  have ha2 : c % 256 ^^^ b2 % 256 < 256 := by omega
  have hT := xor_left_cancel h
  have hargs := crcTableEntry_inj ha1 ha2 hT
  have := xor_left_cancel hargs
  omega

theorem foldl_crcStep_ne (l : List Nat) {c1 c2 : Nat} (hne : c1 ≠ c2)
    (h1 : c1 < 2 ^ 32) (h2 : c2 < 2 ^ 32) :
    l.foldl crcStep c1 ≠ l.foldl crcStep c2 := by
  induction l generalizing c1 c2 with
  | nil => simpa
  | cons x xs ih =>
    simp only [List.foldl_cons]
    exact ih (fun h => hne (crcStep_state_inj x h1 h2 h)) (crcStep_lt x h1) (crcStep_lt x h2)

theorem crc32_middle_ne (hd tl : List Nat) {b1 b2 : Nat} (hb1 : b1 < 256)
    (hb2 : b2 < 256) (hne : b1 ≠ b2) :
    crc32 (hd ++ b1 :: tl) ≠ crc32 (hd ++ b2 :: tl) := by
  intro h
  have hs : hd.foldl crcStep 0xFFFFFFFF < 2 ^ 32 := foldl_crcStep_lt hd (by norm_num)
  have hstep : crcStep (hd.foldl crcStep 0xFFFFFFFF) b1 ≠
      crcStep (hd.foldl crcStep 0xFFFFFFFF) b2 :=
    crcStep_byte_inj _ hb1 hb2 hne
  have hfold : (hd ++ b1 :: tl).foldl crcStep 0xFFFFFFFF ≠
      (hd ++ b2 :: tl).foldl crcStep 0xFFFFFFFF := by
    rw [List.foldl_append, List.foldl_append, List.foldl_cons, List.foldl_cons]
    exact foldl_crcStep_ne tl hstep (crcStep_lt _ hs) (crcStep_lt _ hs)
  exact hfold (xor_right_cancel h)

theorem crc32_set_ne {l : List Nat} {i v : Nat} (hi : i < l.length)
    (hl : ∀ x ∈ l, x < 256) (hv : v < 256) (hne : v ≠ l[i]) :
    crc32 (l.set i v) ≠ crc32 l := by
  have hdecomp : l = l.take i ++ l[i] :: l.drop (i + 1) := by
    conv_lhs => rw [← List.take_append_drop i l]
    rw [List.cons_getElem_drop_succ]
  have hset : l.set i v = l.take i ++ v :: l.drop (i + 1) :=
    List.set_eq_take_cons_drop v hi
  rw [hset]
  conv_rhs => rw [hdecomp]
  exact crc32_middle_ne _ _ hv (hl _ (l.getElem_mem hi)) hne

/-! ## Structural lemmas about assembled frames -/

theorem frameOf_eq (s c : Nat) (sect : List Nat) :
    frameOf s c sect =
      preOf s c sect ++ toBE4 (crc32 (preOf s c sect)) ++ toBE4 SUFFIX := rfl

theorem build_frame_eq (A : AesModel) (s c : Nat) (p key : List Nat) :
    build_frame A s c p key = frameOf s c (payload_section A c p key) := rfl

theorem responseFrame_eq (s c r : Nat) (body : List Nat) :
    responseFrame s c r body = frameOf s c (toBE4 r ++ body) := rfl

theorem length_preOf (s c : Nat) (sect : List Nat) :
    (preOf s c sect).length = sect.length + 16 := by
  simp [preOf, length_toBE4]
  omega

theorem preOf_ra (s c : Nat) (sect : List Nat) :
    preOf s c sect = toBE4 PREFIX ++ (toBE4 s ++ (toBE4 c ++
      (toBE4 ((sect.length + FOOTER_SIZE) % 2 ^ 32) ++ sect))) := by
  simp [preOf, List.append_assoc]

theorem drop_toBE4 (x : Nat) (r : List Nat) (k : Nat) :
    (toBE4 x ++ r).drop (4 + k) = r.drop k := by
  rw [show 4 + k = (toBE4 x).length + k by rw [length_toBE4], List.drop_append]

theorem toBE4_bytes (v : Nat) : ∀ x ∈ toBE4 v, x < 256 := by
  intro x hx
  simp [toBE4] at hx
  rcases hx with rfl | rfl | rfl | rfl <;> omega

theorem preOf_bytes {sect : List Nat} (s c : Nat) (hsect : ∀ x ∈ sect, x < 256) :
    ∀ x ∈ preOf s c sect, x < 256 := by
  intro x hx
  simp only [preOf, List.append_assoc, List.mem_append] at hx
  rcases hx with h | h | h | h | h
  · exact toBE4_bytes _ _ h
  · exact toBE4_bytes _ _ h
  · exact toBE4_bytes _ _ h
  · exact toBE4_bytes _ _ h
  · exact hsect _ h

theorem frameOf_take_pre (s c : Nat) (sect : List Nat) :
    (frameOf s c sect).take (sect.length + 16) = preOf s c sect := by
  rw [frameOf_eq, List.append_assoc, ← length_preOf s c sect]
  exact List.take_left _ _

theorem byteAt_frameOf_pre (s c : Nat) (sect : List Nat) {i : Nat}
    (h : i < sect.length + 16) :
    byteAt (frameOf s c sect) i = byteAt (preOf s c sect) i := by
  rw [frameOf_eq, List.append_assoc]
  exact byteAt_append_left _ (by rw [length_preOf]; omega)

theorem frameOf_read0 (s c : Nat) (sect : List Nat) :
    readBE4 (frameOf s c sect) 0 = PREFIX := by
  rw [frameOf_eq, List.append_assoc,
    readBE4_append_left _ (by rw [length_preOf]; omega), preOf_ra]
  exact readBE4_toBE4 _ (by norm_num [PREFIX])

theorem frameOf_read4 {s : Nat} (c : Nat) (sect : List Nat) (hs : s < 2 ^ 32) :
    readBE4 (frameOf s c sect) 4 = s := by
  rw [frameOf_eq, List.append_assoc,
    readBE4_append_left _ (by rw [length_preOf]; omega), preOf_ra,
    show (4 : Nat) = 4 + 0 by rfl, readBE4_toBE4_skip]
  exact readBE4_toBE4 _ hs

theorem frameOf_read8 (s : Nat) {c : Nat} (sect : List Nat) (hc : c < 2 ^ 32) :
    readBE4 (frameOf s c sect) 8 = c := by
  rw [frameOf_eq, List.append_assoc,
    readBE4_append_left _ (by rw [length_preOf]; omega), preOf_ra,
    show (8 : Nat) = 4 + (4 + 0) by rfl, readBE4_toBE4_skip, readBE4_toBE4_skip]
  exact readBE4_toBE4 _ hc

theorem frameOf_read12 (s c : Nat) {sect : List Nat} (hlen : sect.length + 8 < 2 ^ 32) :
    readBE4 (frameOf s c sect) 12 = sect.length + 8 := by
  have hmod : (sect.length + FOOTER_SIZE) % 2 ^ 32 = sect.length + 8 :=
    Nat.mod_eq_of_lt hlen
  rw [frameOf_eq, List.append_assoc,
    readBE4_append_left _ (by rw [length_preOf]; omega), preOf_ra, hmod,
    show (12 : Nat) = 4 + (4 + (4 + 0)) by rfl, readBE4_toBE4_skip, readBE4_toBE4_skip,
    readBE4_toBE4_skip]
  exact readBE4_toBE4 _ hlen

theorem frameOf_readCrc (s c : Nat) (sect : List Nat) :
    readBE4 (frameOf s c sect) (sect.length + 16) = crc32 (preOf s c sect) := by
  rw [frameOf_eq, List.append_assoc, readBE4_append_skip _ (by rw [length_preOf]),
    length_preOf, Nat.sub_self]
  exact readBE4_toBE4 _ (crc32_lt _)

theorem frameOf_readSfx (s c : Nat) (sect : List Nat) :
    readBE4 (frameOf s c sect) (sect.length + 20) = SUFFIX := by
  rw [frameOf_eq, List.append_assoc,
    readBE4_append_skip _ (by rw [length_preOf]; omega), length_preOf,
    show sect.length + 20 - (sect.length + 16) = 4 + 0 by omega, readBE4_toBE4_skip]
  exact readBE4_toBE4_only (by norm_num [SUFFIX])

theorem frameOf_drop_last4 (s c : Nat) (sect : List Nat) :
    (frameOf s c sect).drop (sect.length + 20) = toBE4 SUFFIX := by
  rw [frameOf_eq]
  have hl : (preOf s c sect ++ toBE4 (crc32 (preOf s c sect))).length =
      sect.length + 20 := by
    simp [length_preOf, length_toBE4]
  rw [← hl]
  exact List.drop_left _ _

theorem frameOf_crc_field (s c : Nat) (sect : List Nat) :
    ((frameOf s c sect).drop (sect.length + 16)).take 4 =
      toBE4 (crc32 (preOf s c sect)) := by
  rw [frameOf_eq, List.append_assoc, ← length_preOf s c sect, List.drop_left,
    ← length_toBE4 (crc32 (preOf s c sect))]
  exact List.take_left _ _

theorem frameOf_take4 (s c : Nat) (sect : List Nat) :
    (frameOf s c sect).take 4 = toBE4 PREFIX := by
  rw [frameOf_eq, List.append_assoc,
    List.take_append_of_le_length (by rw [length_preOf]; omega), preOf_ra,
    List.take_append_of_le_length (by rw [length_toBE4])]
  simp [toBE4]

theorem frameOf_drop16 (s c : Nat) (sect : List Nat) :
    (frameOf s c sect).drop 16 =
      sect ++ (toBE4 (crc32 (preOf s c sect)) ++ toBE4 SUFFIX) := by
  obtain ⟨K, hK⟩ : ∃ k, k = crc32 (preOf s c sect) := ⟨_, rfl⟩
  rw [frameOf_eq, List.append_assoc, ← hK, preOf_ra]
  simp only [List.append_assoc]
  rw [show (16 : Nat) = 4 + (4 + (4 + (4 + 0))) by rfl, drop_toBE4, drop_toBE4,
    drop_toBE4, drop_toBE4]
  simp

/-! ## Byte reads through `List.set` -/

theorem byteAt_set_ne {l : List Nat} {i j v : Nat} (h : i ≠ j) :
    byteAt (l.set i v) j = byteAt l j := by
  simp [byteAt, List.getD_eq_getElem?_getD, List.getElem?_set_ne h]

theorem readBE4_set_outside {l : List Nat} {i j v : Nat} (h : i < j ∨ j + 4 ≤ i) :
    readBE4 (l.set i v) j = readBE4 l j := by
  rw [readBE4, readBE4, byteAt_set_ne (by omega), byteAt_set_ne (by omega),
    byteAt_set_ne (by omega), byteAt_set_ne (by omega)]

theorem byteAt_eq_getElem {l : List Nat} {i : Nat} (h : i < l.length) :
    byteAt l i = l[i] := by
  simp [byteAt, List.getD_eq_getElem?_getD, List.getElem?_eq_getElem h]

/-! ## Payload-section facts -/

theorem VERSION_HEADER_bytes : ∀ x ∈ VERSION_HEADER, x < 256 := by decide

theorem length_VERSION_HEADER : VERSION_HEADER.length = 15 := rfl

theorem payload_section_bytes {A : AesModel} {key : List Nat} (hG : GoodCipher A key)
    (c : Nat) {p : List Nat} (hp : ∀ x ∈ p, x < 256) :
    ∀ x ∈ payload_section A c p key, x < 256 := by
  intro x hx
  rw [payload_section] at hx
  split at hx
  · exact encrypt_payload_bytes hG hp x hx
  · rcases List.mem_append.mp hx with h | h
    · exact VERSION_HEADER_bytes x h
    · exact encrypt_payload_bytes hG hp x h

theorem length_payload_section_bounds {A : AesModel} {key : List Nat}
    (hG : GoodCipher A key) (c : Nat) {p : List Nat} (hp : ∀ x ∈ p, x < 256) :
    16 ≤ (payload_section A c p key).length ∧
      (payload_section A c p key).length ≤ p.length + 31 := by
  have henc : (encrypt_payload A p key).length = (p.length / 16 + 1) * 16 :=
    length_encrypt_payload hG hp
  have h1 : 16 ≤ (encrypt_payload A p key).length := by rw [henc]; omega
  have h2 : (encrypt_payload A p key).length ≤ p.length + 16 := by rw [henc]; omega
  rw [payload_section]
  split
  · omega
  · simp only [List.length_append, length_VERSION_HEADER]
    omega

/-! ## Parsing a frame with one corrupted payload byte -/

theorem parse_frameOf_set (A : AesModel) (key : List Nat) (s c : Nat) (sect : List Nat)
    (hlen : sect.length + 8 < 2 ^ 32) (hsect : ∀ x ∈ sect, x < 256)
    {i b' : Nat} (hi16 : 16 ≤ i) (hiL : i < sect.length + 16) (hb : b' < 256)
    (hne : b' ≠ byteAt (frameOf s c sect) i) :
    parse_frame A ((frameOf s c sect).set i b') key =
      some (.error (.CrcMismatch (crc32 (preOf s c sect))
        (crc32 ((preOf s c sect).set i b')))) ∧
      crc32 (preOf s c sect) ≠ crc32 ((preOf s c sect).set i b') := by
  have hFlen : (frameOf s c sect).length = sect.length + 24 := length_frameOf s c sect
  have hGlen : ((frameOf s c sect).set i b').length = sect.length + 24 := by
    rw [List.length_set]; exact hFlen
  have hpb : ∀ x ∈ preOf s c sect, x < 256 := preOf_bytes s c hsect
  have hiP : i < (preOf s c sect).length := by rw [length_preOf]; omega
  have hbne : b' ≠ (preOf s c sect)[i] := by
    rw [← byteAt_eq_getElem hiP, ← byteAt_frameOf_pre s c sect (by omega)]
    exact hne
  have hcrcne : crc32 ((preOf s c sect).set i b') ≠ crc32 (preOf s c sect) :=
    crc32_set_ne hiP hpb hb hbne
  have g0 : readBE4 ((frameOf s c sect).set i b') 0 = PREFIX := by
    rw [readBE4_set_outside (by omega), frameOf_read0]
  have g12 : readBE4 ((frameOf s c sect).set i b') 12 = sect.length + 8 := by
    rw [readBE4_set_outside (by omega), frameOf_read12 s c hlen]
  have gS : readBE4 ((frameOf s c sect).set i b') (sect.length + 20) = SUFFIX := by
    rw [readBE4_set_outside (by omega), frameOf_readSfx]
  have gC : readBE4 ((frameOf s c sect).set i b') (sect.length + 16) =
      crc32 (preOf s c sect) := by
    rw [readBE4_set_outside (by omega), frameOf_readCrc]
  have gT : ((frameOf s c sect).set i b').take (sect.length + 16) =
      (preOf s c sect).set i b' := by
    rw [List.set_take, frameOf_take_pre]
  refine ⟨?_, fun h => hcrcne h.symm⟩
  rw [parse_frame]
  rw [if_neg (by rw [hGlen]; norm_num [HEADER_SIZE, FOOTER_SIZE, CRC_SIZE, SUFFIX_SIZE])]
  simp only [g0, g12]
  rw [if_neg (by simp)]
  rw [if_neg (by rw [hGlen]; norm_num [HEADER_SIZE]; omega)]
  rw [show HEADER_SIZE + (sect.length + 8) - SUFFIX_SIZE = sect.length + 20 by
    norm_num [HEADER_SIZE, SUFFIX_SIZE]; omega]
  simp only [gS]
  rw [if_neg (by simp)]
  rw [show sect.length + 20 - CRC_SIZE = sect.length + 16 by norm_num [CRC_SIZE]; omega]
  simp only [gC, gT]
  rw [if_pos (Ne.symm hcrcne)]

/-! ## Claim theorems -/

/-- Claim C2: for every byte sequence of length 0 to 10000 and every 16-byte
key, `decrypt_payload (encrypt_payload p key) key` succeeds and returns exactly
`p`. -/
theorem C2_encrypt_decrypt_roundtrip (A : AesModel) (key : List Nat)
    (hG : GoodCipher A key) (_hkey : key.length = 16) (p : List Nat)
    (hp : ∀ x ∈ p, x < 256) (_hlen : p.length ≤ 10000) :
    decrypt_payload A (encrypt_payload A p key) key = .ok p :=
  decrypt_encrypt hG hp

theorem C2_witness :
    (List.replicate 16 48).length = 16 ∧ ([1, 2, 3] : List Nat).length ≤ 10000 ∧
    decrypt_payload refCipher (encrypt_payload refCipher [1, 2, 3]
      (List.replicate 16 48)) (List.replicate 16 48) = .ok [1, 2, 3] :=
  ⟨by decide, by decide,
    C2_encrypt_decrypt_roundtrip refCipher (List.replicate 16 48)
      (refCipher_good _) (by decide) [1, 2, 3] (by decide) (by decide)⟩

/-- Claim C7: `encrypt_payload` always succeeds (the buffer sized
`(len / 16 + 1) * 16` always fits the PKCS7-padded message, so the internal
`.expect` can never fire), the ciphertext length is the plaintext length padded
up to the next multiple of 16 — a full extra block when already aligned — and
each pad byte carries the pad-length value. -/
theorem C7_encrypt_total (A : AesModel) (key : List Nat) (hG : GoodCipher A key)
    (p : List Nat) (hp : ∀ x ∈ p, x < 256) :
    pkcs7PadFits p.length ((p.length / 16 + 1) * 16) = true ∧
    (encrypt_payload A p key).length = (p.length / 16 + 1) * 16 ∧
    pkcs7Pad p = p ++ List.replicate (16 - p.length % 16) (16 - p.length % 16) ∧
    (p.length % 16 = 0 → (pkcs7Pad p).length = p.length + 16) := by
  refine ⟨?_, length_encrypt_payload hG hp, rfl, ?_⟩
  · simp only [pkcs7PadFits, padLen, decide_eq_true_eq]
    omega
  · intro h
    rw [length_pkcs7Pad]
    unfold padLen
    omega

theorem C7_witness :
    (∀ x ∈ [5], x < 256) ∧
    (pkcs7PadFits 1 16 = true ∧
      (encrypt_payload refCipher [5] (List.replicate 16 48)).length = 16 ∧
      pkcs7Pad [5] = [5] ++ List.replicate 15 15 ∧
      (([5] : List Nat).length % 16 = 0 → (pkcs7Pad [5]).length = 1 + 16)) :=
  ⟨by decide,
    C7_encrypt_total refCipher (List.replicate 16 48) (refCipher_good _) [5] (by decide)⟩

/-- Claim C9 counterexample: the sequence counter is a wrapping `AtomicU32`, so
at the 4294967295-th allocation the returned number drops to 0 (not strictly
increasing) and at the 4294967296-th it repeats the value 1 of allocation 0
(reuse). -/
theorem C9_counterexample :
    seqnoAt 4294967295 < seqnoAt 0 ∧ seqnoAt 4294967296 = seqnoAt 0 := by
  constructor <;> rw [seqnoAt_closed, seqnoAt_closed] <;> norm_num

/-- Claim C9 (amended): the counter is initialized to 1 at connect, each
`send_receive` allocates by fetch-and-increment wrapping mod `2^32`, so the
`i`-th exchange gets `(1 + i) mod 2^32`; the allocated numbers start at 1 and
are strictly increasing and pairwise distinct as long as no more than
`2^32 - 1` allocations occur. -/
theorem C9_seqno_amended :
    SEQNO_INIT = 1 ∧
    (∀ i, seqnoAt i = (1 + i) % 2 ^ 32) ∧
    (∀ i, next_seqno (counterAfter i) =
      (counterAfter i, (counterAfter i + 1) % 2 ^ 32)) ∧
    (∀ i j, i < j → j ≤ 2 ^ 32 - 2 → seqnoAt i < seqnoAt j) ∧
    (∀ i j, i < j → j ≤ 2 ^ 32 - 2 → seqnoAt i ≠ seqnoAt j) := by
  refine ⟨rfl, seqnoAt_closed, fun i => rfl, ?_, ?_⟩
  · intro i j hij hj
    rw [seqnoAt_closed, seqnoAt_closed, Nat.mod_eq_of_lt (by omega),
      Nat.mod_eq_of_lt (by omega)]
    omega
  · intro i j hij hj
    rw [seqnoAt_closed, seqnoAt_closed, Nat.mod_eq_of_lt (by omega),
      Nat.mod_eq_of_lt (by omega)]
    omega

theorem C9_witness : (0 : Nat) < 1 ∧ seqnoAt 0 < seqnoAt 1 :=
  ⟨by decide, C9_seqno_amended.2.2.2.1 0 1 (by decide) (by decide)⟩

/-- Claim C6: `build_frame` for the control command (and any command outside
the no-header table) places the clear-text 15-byte version tag right after the
16-byte header, before the ciphertext; for the heartbeat, data-point-query and
bulk-update commands the ciphertext follows the header directly; membership is
decided by the fixed table `NO_HEADER_CMDS`. -/
theorem C6_version_tag_table (A : AesModel) (s : Nat) (p key : List Nat) :
    (∀ cmd, cmd ∉ NO_HEADER_CMDS →
      ((build_frame A s cmd p key).drop 16).take 15 = VERSION_HEADER ∧
      ((build_frame A s cmd p key).drop 31).take (encrypt_payload A p key).length =
        encrypt_payload A p key) ∧
    (∀ cmd ∈ NO_HEADER_CMDS,
      ((build_frame A s cmd p key).drop 16).take (encrypt_payload A p key).length =
        encrypt_payload A p key) ∧
    NO_HEADER_CMDS = [CMD_DP_QUERY, CMD_UPDATEDPS, CMD_HEART_BEAT] ∧
    CMD_CONTROL ∉ NO_HEADER_CMDS ∧ CMD_HEART_BEAT ∈ NO_HEADER_CMDS ∧
    CMD_DP_QUERY ∈ NO_HEADER_CMDS ∧ CMD_UPDATEDPS ∈ NO_HEADER_CMDS := by
  refine ⟨?_, ?_, rfl, by decide, by decide, by decide, by decide⟩
  · intro cmd hcmd
    have hsect : payload_section A cmd p key =
        VERSION_HEADER ++ encrypt_payload A p key := by
      rw [payload_section, if_neg hcmd]
    constructor
    · rw [build_frame_eq, hsect, frameOf_drop16, List.append_assoc,
        ← length_VERSION_HEADER]
      exact List.take_left _ _
    · rw [build_frame_eq, hsect, show (31 : Nat) = 16 + 15 by rfl, ← List.drop_drop,
        frameOf_drop16, List.append_assoc, ← length_VERSION_HEADER, List.drop_left]
      exact List.take_left _ _
  · intro cmd hcmd
    have hsect : payload_section A cmd p key = encrypt_payload A p key := by
      rw [payload_section, if_pos hcmd]
    rw [build_frame_eq, frameOf_drop16, hsect]
    exact List.take_left _ _

theorem C6_witness :
    CMD_HEART_BEAT ∈ NO_HEADER_CMDS ∧
    ((build_frame refCipher 1 CMD_HEART_BEAT [1, 2] (List.replicate 16 48)).drop 16).take
      (encrypt_payload refCipher [1, 2] (List.replicate 16 48)).length =
      encrypt_payload refCipher [1, 2] (List.replicate 16 48) :=
  ⟨by decide,
    (C6_version_tag_table refCipher 1 [1, 2] (List.replicate 16 48)).2.1
      CMD_HEART_BEAT (by decide)⟩

/-- Claim C5 (amended): every frame from `build_frame` starts with the
big-endian prefix `0x000055AA`, carries the sequence number at bytes 4-7 and
the command at bytes 8-11, has the declared-length field at bytes 12-15 equal
to the payload-section length plus 8 — which is the total frame length minus
16, while the payload-section length itself is the total minus 16 minus 8 —
carries at offset `16 + L` the CRC-32 of all preceding bytes, and ends with
the suffix `0x0000AA55`.  (The claim's parenthetical equating the field with
total minus 16 minus 8 is off by 8; see the counterexample.) -/
theorem C5_build_frame_structure (A : AesModel) (key : List Nat)
    (hG : GoodCipher A key) (s c : Nat) (p : List Nat) (hs : s < 2 ^ 32)
    (hc : c < 2 ^ 32) (hp : ∀ x ∈ p, x < 256) (hplen : p.length + 100 < 2 ^ 32) :
    (build_frame A s c p key).take 4 = toBE4 PREFIX ∧
    toBE4 PREFIX = [0x00, 0x00, 0x55, 0xAA] ∧
    readBE4 (build_frame A s c p key) 4 = s ∧
    readBE4 (build_frame A s c p key) 8 = c ∧
    readBE4 (build_frame A s c p key) 12 = (payload_section A c p key).length + 8 ∧
    (payload_section A c p key).length + 8 = (build_frame A s c p key).length - 16 ∧
    (payload_section A c p key).length = (build_frame A s c p key).length - 16 - 8 ∧
    ((build_frame A s c p key).drop (16 + (payload_section A c p key).length)).take 4 =
      toBE4 (crc32 ((build_frame A s c p key).take
        (16 + (payload_section A c p key).length))) ∧
    (build_frame A s c p key).drop ((build_frame A s c p key).length - 4) =
      toBE4 SUFFIX ∧
    toBE4 SUFFIX = [0x00, 0x00, 0xAA, 0x55] := by
  obtain ⟨hge, hle⟩ := length_payload_section_bounds hG c hp
  have hlen : (payload_section A c p key).length + 8 < 2 ^ 32 := by omega
  have hflen : (build_frame A s c p key).length =
      (payload_section A c p key).length + 24 := by
    rw [build_frame_eq]; exact length_frameOf _ _ _
  have h6 : (payload_section A c p key).length + 8 =
      (build_frame A s c p key).length - 16 := by
    rw [hflen]
    omega
  have h6' : (payload_section A c p key).length =
      (build_frame A s c p key).length - 16 - 8 := by
    rw [hflen]
    omega
  refine ⟨?_, by decide, ?_, ?_, ?_, h6, h6', ?_, ?_, by decide⟩
  · rw [build_frame_eq]; exact frameOf_take4 _ _ _
  · rw [build_frame_eq]; exact frameOf_read4 _ _ hs
  · rw [build_frame_eq]; exact frameOf_read8 _ _ hc
  · rw [build_frame_eq]; exact frameOf_read12 _ _ hlen
  · rw [build_frame_eq, Nat.add_comm 16 (payload_section A c p key).length,
      frameOf_take_pre, frameOf_crc_field]
  · rw [hflen,
      show (payload_section A c p key).length + 24 - 4 =
        (payload_section A c p key).length + 20 by omega, build_frame_eq]
    exact frameOf_drop_last4 _ _ _

theorem C5_witness :
    ((1 : Nat) < 2 ^ 32) ∧
    (build_frame refCipher 1 7 [9] (List.replicate 16 48)).take 4 = toBE4 PREFIX ∧
    readBE4 (build_frame refCipher 1 7 [9] (List.replicate 16 48)) 4 = 1 :=
  ⟨by decide,
    (C5_build_frame_structure refCipher (List.replicate 16 48) (refCipher_good _)
      1 7 [9] (by decide) (by decide) (by decide) (by decide)).1,
    (C5_build_frame_structure refCipher (List.replicate 16 48) (refCipher_good _)
      1 7 [9] (by decide) (by decide) (by decide) (by decide)).2.2.1⟩

/-- Claim C5 counterexample: the declared-length field is not the total frame
length minus 16 minus 8 — on the control frame for payload `[9]` the field
holds 39 (payload section 31 plus 8) while the 55-byte frame minus 24 gives
31. -/
theorem C5_counterexample :
    readBE4 (build_frame refCipher 1 7 [9] (List.replicate 16 48)) 12 = 39 ∧
    (build_frame refCipher 1 7 [9] (List.replicate 16 48)).length - 16 - 8 = 31 ∧
    readBE4 (build_frame refCipher 1 7 [9] (List.replicate 16 48)) 12 ≠
      (build_frame refCipher 1 7 [9] (List.replicate 16 48)).length - 16 - 8 := by
  refine ⟨by decide, by decide, by decide⟩

/-- Claim C10: an otherwise valid inbound frame whose raw payload section is
exactly the 15-byte version tag parses successfully to an empty payload for any
cipher model whatsoever (so no decryption is attempted), and the tag is
stripped exactly when the raw payload is at least 15 bytes long and starts
with the 3-byte marker. -/
theorem C10_tag_only_payload (A : AesModel) (key : List Nat) (s c r : Nat)
    (hs : s < 2 ^ 32) (hc : c < 2 ^ 32) (hr : r < 2 ^ 32) :
    parse_frame A (responseFrame s c r VERSION_HEADER) key =
      some (.ok ⟨s, c, r, []⟩) ∧
    (∀ raw : List Nat, 15 ≤ raw.length → raw.take 3 = [0x33, 0x2E, 0x33] →
      strip_version raw = raw.drop 15) ∧
    (∀ raw : List Nat, raw.length < 15 ∨ raw.take 3 ≠ [0x33, 0x2E, 0x33] →
      strip_version raw = raw) := by
  refine ⟨?_, ?_, ?_⟩
  · rw [responseFrame_eq]
    rw [parse_frameOf A key s c _ hs hc (by simp [length_toBE4, VERSION_HEADER])
      (by simp [length_toBE4])]
    have h0 : readBE4 (toBE4 r ++ VERSION_HEADER) 0 = r := readBE4_toBE4 _ hr
    have hdrop : (toBE4 r ++ VERSION_HEADER).drop 4 = VERSION_HEADER := by
      rw [show (4 : Nat) = 4 + 0 by rfl, drop_toBE4, List.drop_zero]
    rw [h0, hdrop, parse_tail]
    rw [if_neg (by decide)]
    have hstrip : strip_version VERSION_HEADER = [] := by
      have := strip_version_tag []
      simpa using this
    rw [hstrip]
    rfl
  · intro raw h1 h2
    rw [strip_version, if_pos ⟨h1, h2⟩]
  · intro raw h
    have hcond : ¬(15 ≤ raw.length ∧ raw.take 3 = [0x33, 0x2E, 0x33]) := by
      rintro ⟨h1, h2⟩
      rcases h with h3 | h3
      · omega
      · exact h3 h2
    rw [strip_version, if_neg hcond]

theorem C10_witness :
    ((5 : Nat) < 2 ^ 32) ∧
    parse_frame refCipher (responseFrame 5 8 0 VERSION_HEADER)
      (List.replicate 16 48) = some (.ok ⟨5, 8, 0, []⟩) :=
  ⟨by decide,
    (C10_tag_only_payload refCipher (List.replicate 16 48) 5 8 0 (by decide)
      (by decide) (by decide)).1⟩

/-- Claim C1 counterexample: `parse_frame` on a frame produced by `build_frame`
with the matching key does not return the original message — it fails with
`DecryptionFailed`, because `parse_frame` consumes the first four payload bytes
as a device result code that `build_frame` never emits. -/
theorem C1_counterexample :
    parse_frame refCipher
      (build_frame refCipher 1 CMD_CONTROL [1, 2, 3] (List.replicate 16 48))
      (List.replicate 16 48) = some (.error .DecryptionFailed) := by decide

/-- Claim C1 (amended): the round-trip holds for response-shaped frames: for
every seqno, cmd, result code, plaintext and 16-byte key, parsing the frame
`[header][retcode][version tag][encrypt_payload p key][crc][suffix]` (the shape
the repository's own test builds) returns a `Message` whose payload is exactly
`p` and whose seqno, cmd and retcode match; `parse_frame` applied directly to
`build_frame` output fails with `DecryptionFailed` instead. -/
theorem C1_response_roundtrip (A : AesModel) (key : List Nat) (hG : GoodCipher A key)
    (_hkey : key.length = 16) (s c r : Nat) (p : List Nat)
    (hs : s < 2 ^ 32) (hc : c < 2 ^ 32) (hr : r < 2 ^ 32)
    (hp : ∀ x ∈ p, x < 256) (hplen : p.length + 100 < 2 ^ 32) :
    parse_frame A (responseFrame s c r (VERSION_HEADER ++ encrypt_payload A p key))
      key = some (.ok ⟨s, c, r, p⟩) := by
  have henc : (encrypt_payload A p key).length = (p.length / 16 + 1) * 16 :=
    length_encrypt_payload hG hp
  have hencpos : encrypt_payload A p key ≠ [] := by
    intro h
    have hl := congrArg List.length h
    rw [henc] at hl
    simp only [List.length_nil] at hl
    omega
  rw [responseFrame_eq]
  rw [parse_frameOf A key s c _ hs hc
    (by simp [length_toBE4, length_VERSION_HEADER]; omega)
    (by simp [length_toBE4])]
  have h0 : readBE4 (toBE4 r ++ (VERSION_HEADER ++ encrypt_payload A p key)) 0 = r :=
    readBE4_toBE4 _ hr
  have hdrop : (toBE4 r ++ (VERSION_HEADER ++ encrypt_payload A p key)).drop 4 =
      VERSION_HEADER ++ encrypt_payload A p key := by
    rw [show (4 : Nat) = 4 + 0 by rfl, drop_toBE4, List.drop_zero]
  rw [h0, hdrop, parse_tail]
  rw [if_neg (by simp [VERSION_HEADER])]
  rw [strip_version_tag]
  rw [if_neg hencpos]
  rw [decrypt_encrypt hG hp]

/-- Claim C3: flipping any single byte of a built frame at an offset in the
payload section (strictly between the 16-byte header and the checksum field)
makes `parse_frame` fail with a CRC mismatch whose two checksums really
differ — never a false success; any buffer shorter than 24 bytes fails with
`PayloadTooShort`; and replacing the first 4 bytes of a valid frame with any
encoding of a value other than the prefix constant fails with
`InvalidPrefix` carrying that value. -/
theorem C3_corruption_detection (A : AesModel) (key : List Nat)
    (hG : GoodCipher A key) (s c : Nat) (p : List Nat) (_hs : s < 2 ^ 32)
    (_hc : c < 2 ^ 32) (hp : ∀ x ∈ p, x < 256) (hplen : p.length + 100 < 2 ^ 32) :
    (∀ i b', 16 ≤ i → i < 16 + (payload_section A c p key).length → b' < 256 →
      b' ≠ byteAt (build_frame A s c p key) i →
      ∃ e a, parse_frame A ((build_frame A s c p key).set i b') key =
        some (.error (.CrcMismatch e a)) ∧ e ≠ a) ∧
    (∀ data : List Nat, data.length < 24 →
      parse_frame A data key = some (.error .PayloadTooShort)) ∧
    (∀ v, v < 2 ^ 32 → v ≠ PREFIX →
      parse_frame A (toBE4 v ++ (build_frame A s c p key).drop 4) key =
        some (.error (.InvalidPrefix v))) := by
  obtain ⟨hge, hle⟩ := length_payload_section_bounds hG c hp
  have hlen : (payload_section A c p key).length + 8 < 2 ^ 32 := by omega
  have hsb : ∀ x ∈ payload_section A c p key, x < 256 :=
    payload_section_bytes hG c hp
  refine ⟨?_, ?_, ?_⟩
  · intro i b' hi16 hiL hb hne
    rw [build_frame_eq] at hne ⊢
    obtain ⟨heq, hneq⟩ :=
      parse_frameOf_set A key s c _ hlen hsb hi16 (by omega) hb hne
    exact ⟨_, _, heq, hneq⟩
  · intro data hdata
    rw [parse_frame,
      if_pos (by norm_num [HEADER_SIZE, FOOTER_SIZE, CRC_SIZE, SUFFIX_SIZE]; omega)]
  · intro v hv hvne
    have hflen : (build_frame A s c p key).length =
        (payload_section A c p key).length + 24 := by
      rw [build_frame_eq]; exact length_frameOf _ _ _
    have hlen2 : (toBE4 v ++ (build_frame A s c p key).drop 4).length =
        (payload_section A c p key).length + 24 := by
      simp only [List.length_append, length_toBE4, List.length_drop, hflen]
      omega
    rw [parse_frame]
    rw [if_neg (by
      rw [hlen2]; norm_num [HEADER_SIZE, FOOTER_SIZE, CRC_SIZE, SUFFIX_SIZE])]
    rw [readBE4_toBE4 _ hv]
    rw [if_pos hvne]

theorem C3_witness :
    ((16 : Nat) ≤ 16) ∧
    (∃ e a, parse_frame refCipher
        ((build_frame refCipher 1 7 [9] (List.replicate 16 48)).set 16 0)
        (List.replicate 16 48) = some (.error (.CrcMismatch e a)) ∧ e ≠ a) ∧
    parse_frame refCipher [0, 1] (List.replicate 16 48) =
      some (.error .PayloadTooShort) ∧
    parse_frame refCipher
      (toBE4 5 ++ (build_frame refCipher 1 7 [9] (List.replicate 16 48)).drop 4)
      (List.replicate 16 48) = some (.error (.InvalidPrefix 5)) :=
  ⟨by decide,
    (C3_corruption_detection refCipher (List.replicate 16 48) (refCipher_good _)
      1 7 [9] (by decide) (by decide) (by decide) (by decide)).1 16 0 (by decide)
      (by decide) (by decide) (by decide),
    (C3_corruption_detection refCipher (List.replicate 16 48) (refCipher_good _)
      1 7 [9] (by decide) (by decide) (by decide) (by decide)).2.1 [0, 1] (by decide),
    (C3_corruption_detection refCipher (List.replicate 16 48) (refCipher_good _)
      1 7 [9] (by decide) (by decide) (by decide) (by decide)).2.2 5 (by decide)
      (by decide)⟩

/-- Claim C4: `parse_frame` validates in order — minimum length 24 failing
with `PayloadTooShort`, then the prefix constant failing with
`InvalidPrefix(actual)`, then the declared length against the buffer length
failing with `PayloadTooShort`, then the suffix at the computed tail offset
failing with `InvalidSuffix(actual)`, then CRC-32 over all bytes preceding the
checksum field failing with `CrcMismatch(expected, actual)`. -/
theorem C4_parse_validation_order (A : AesModel) (data key : List Nat) :
    (data.length < 24 → parse_frame A data key = some (.error .PayloadTooShort)) ∧
    (24 ≤ data.length → readBE4 data 0 ≠ PREFIX →
      parse_frame A data key = some (.error (.InvalidPrefix (readBE4 data 0)))) ∧
    (24 ≤ data.length → readBE4 data 0 = PREFIX →
      data.length < 16 + readBE4 data 12 →
      parse_frame A data key = some (.error .PayloadTooShort)) ∧
    (24 ≤ data.length → readBE4 data 0 = PREFIX →
      16 + readBE4 data 12 ≤ data.length →
      readBE4 data (16 + readBE4 data 12 - 4) ≠ SUFFIX →
      parse_frame A data key =
        some (.error (.InvalidSuffix (readBE4 data (16 + readBE4 data 12 - 4))))) ∧
    (24 ≤ data.length → readBE4 data 0 = PREFIX →
      16 + readBE4 data 12 ≤ data.length →
      readBE4 data (16 + readBE4 data 12 - 4) = SUFFIX →
      readBE4 data (16 + readBE4 data 12 - 4 - 4) ≠
        crc32 (data.take (16 + readBE4 data 12 - 4 - 4)) →
      parse_frame A data key =
        some (.error (.CrcMismatch (readBE4 data (16 + readBE4 data 12 - 4 - 4))
          (crc32 (data.take (16 + readBE4 data 12 - 4 - 4)))))) := by
  have h24 : HEADER_SIZE + FOOTER_SIZE = 24 := rfl
  refine ⟨?_, ?_, ?_, ?_, ?_⟩
  · intro h
    rw [parse_frame, if_pos (by omega)]
  · intro h1 h2
    rw [parse_frame, if_neg (by omega)]
    simp [h2]
  · intro h1 h2 h3
    rw [parse_frame, if_neg (by omega)]
    simp [h2, HEADER_SIZE, h3]
  · intro h1 h2 h3 h4
    have h3' : ¬data.length < 16 + readBE4 data 12 := by omega
    rw [parse_frame, if_neg (by omega)]
    simp [h2, HEADER_SIZE, SUFFIX_SIZE, h3', h4]
  · intro h1 h2 h3 h4 h5
    have h3' : ¬data.length < 16 + readBE4 data 12 := by omega
    rw [parse_frame, if_neg (by omega)]
    simp [h2, HEADER_SIZE, SUFFIX_SIZE, CRC_SIZE, h3', h4, h5]

theorem C4_witness :
    (([] : List Nat).length < 24) ∧
    parse_frame refCipher [] (List.replicate 16 48) =
      some (.error .PayloadTooShort) ∧
    parse_frame refCipher (List.replicate 24 0) (List.replicate 16 48) =
      some (.error (.InvalidPrefix 0)) :=
  ⟨by decide,
    (C4_parse_validation_order refCipher [] (List.replicate 16 48)).1 (by decide),
    by
      have h := (C4_parse_validation_order refCipher (List.replicate 24 0)
        (List.replicate 16 48)).2.1 (by decide) (by decide)
      simpa using h⟩

theorem pkcs7Unpad_none_iff (pt : List Nat) :
    pkcs7Unpad pt = none ↔ selfConsistentPad pt = false := by
  cases hl : pt.getLast? with
  | none => simp [pkcs7Unpad, selfConsistentPad, hl]
  | some n =>
    simp only [pkcs7Unpad, selfConsistentPad, hl]
    by_cases h1 : n = 0 ∨ 16 < n
    · rw [if_pos h1]
      have hb : (decide (1 ≤ n) && decide (n ≤ 16)) = false := by
        rcases h1 with rfl | h
        · simp
        · simp only [Bool.and_eq_false_iff, decide_eq_false_iff_not]
          right
          omega
      simp [hb]
    · rw [if_neg h1]
      push_neg at h1
      have hb1 : decide (1 ≤ n) = true := by simp; omega
      have hb2 : decide (n ≤ 16) = true := by simp; omega
      by_cases h2 : (pt.drop (pt.length - n)).all (fun x => x == n) = true
      · rw [if_pos h2]
        simp [hb1, hb2, h2]
      · rw [if_neg h2]
        have h2' : (pt.drop (pt.length - n)).all (fun x => x == n) = false :=
          Bool.eq_false_iff.mpr h2
        simp [hb1, hb2, h2']

/-- Claim C8: `decrypt_payload` fails — always with `DecryptionFailed` — if and
only if the ciphertext length is not a positive multiple of 16 bytes (the
empty ciphertext included) or, after block decryption, the trailing padding is
not self-consistent; otherwise it returns the unpadded plaintext. -/
theorem C8_decrypt_error_iff (A : AesModel) (ct key : List Nat) :
    (decrypt_payload A ct key = .error .DecryptionFailed ↔
      ¬(0 < ct.length ∧ ct.length % 16 = 0) ∨
        selfConsistentPad (((chunks ct).map (A.decBlock key)).flatten) = false) ∧
    (∀ pt, decrypt_payload A ct key = .ok pt →
      pkcs7Unpad (((chunks ct).map (A.decBlock key)).flatten) = some pt) := by
  constructor
  · by_cases hm : ct.length % 16 = 0
    · by_cases h0 : ct.length = 0
      · have hct : ct = [] := List.length_eq_zero.mp h0
        subst hct
        refine iff_of_true ?_ (Or.inl (by simp))
        rw [decrypt_payload, if_neg (by simp)]
        rfl
      · rw [decrypt_payload, if_neg (by omega)]
        cases hu : pkcs7Unpad (((chunks ct).map (A.decBlock key)).flatten) with
        | none =>
          simp only [hu]
          exact iff_of_true trivial (Or.inr ((pkcs7Unpad_none_iff _).mp hu))
        | some q =>
          simp only [hu]
          refine iff_of_false (by simp) ?_
          rintro (h | h)
          · exact h ⟨by omega, hm⟩
          · have hn := (pkcs7Unpad_none_iff _).mpr h
            rw [hu] at hn
            exact Option.noConfusion hn
    · rw [decrypt_payload, if_pos (by omega)]
      have hr : ¬(0 < ct.length ∧ ct.length % 16 = 0) := fun h => hm h.2
      simp [hr]
  · intro pt hpt
    rw [decrypt_payload] at hpt
    by_cases hm : ct.length % 16 = 0
    · rw [if_neg (by omega)] at hpt
      cases hu : pkcs7Unpad (((chunks ct).map (A.decBlock key)).flatten) with
      | none =>
        rw [hu] at hpt
        exact absurd hpt (by simp)
      | some q =>
        rw [hu] at hpt
        simp only [Except.ok.injEq] at hpt
        subst hpt
        rfl
    · rw [if_pos (by omega)] at hpt
      exact absurd hpt (by simp)

theorem C8_witness :
    decrypt_payload refCipher (List.replicate 16 3) (List.replicate 16 48) =
      .ok (List.replicate 13 3) ∧
    pkcs7Unpad (((chunks (List.replicate 16 3)).map
      (refCipher.decBlock (List.replicate 16 48))).flatten) =
      some (List.replicate 13 3) :=
  ⟨by decide,
    (C8_decrypt_error_iff refCipher (List.replicate 16 3) (List.replicate 16 48)).2
      (List.replicate 13 3) (by decide)⟩

theorem C1_witness :
    (List.replicate 16 48).length = 16 ∧
    parse_frame refCipher (responseFrame 42 8 0
      (VERSION_HEADER ++ encrypt_payload refCipher [10, 20, 30] (List.replicate 16 48)))
      (List.replicate 16 48) = some (.ok ⟨42, 8, 0, [10, 20, 30]⟩) :=
  ⟨by decide,
    C1_response_roundtrip refCipher (List.replicate 16 48) (refCipher_good _)
      (by decide) 42 8 0 [10, 20, 30] (by decide) (by decide) (by decide)
      (by decide) (by decide)⟩

end Hearth
